import Mathlib

/-!
Verification of the `imgDownscale` storage-trigger pipeline
(`src/functions/index.js`) against its natural-language specification.

The handler is embedded shallowly: strings are `List Char`, the Node
`path.posix` helpers (`basename`, `dirname`, `normalize`, `join`) and the
first-occurrence `String.prototype.replace` are transcribed from their
documented algorithms, and every fallible external collaborator (bucket
download/upload/delete, signed-URL issuance, image decoding, the spawned
`convert` process, the Firestore update) is driven by an explicit oracle
recording whether the call succeeds, together with the event-independent
data it produces (image dimensions, timestamp, bytes).  A run returns its
exit (early null, success value, or the stage whose awaited call threw)
plus a trace of every external call the handler issued.
-/

namespace Firechat

/-- Character strings, modelled as lists of characters. -/
abbrev Str := List Char

/-- File contents, modelled as abstract byte lists. -/
abbrev Bytes := List Nat

/-- The character list of a string literal. -/
def strD (s : String) : Str := s.data

/-- JavaScript `s.startsWith(pat)` on our string model. -/
def startsW (pat s : Str) : Bool := decide (pat <+: s)

/-- JavaScript `s.endsWith(pat)` on our string model. -/
def endsW (pat s : Str) : Bool := decide (pat <:+ s)

/-! ## Node `path.posix` primitives, transcribed from their algorithms -/

/-- Split a path into the segments between `'/'` characters. -/
def splitSlash : Str → List Str
  | [] => [[]]
  | c :: cs =>
    if c = '/' then [] :: splitSlash cs
    else
      match splitSlash cs with
      | [] => [[c]]
      | s :: ss => (c :: s) :: ss

/-- The `".."` path segment. -/
def dotdot : Str := ['.', '.']

/-- Node's `normalizeString` segment stack: drop empty and `"."` segments,
let `".."` pop a previous segment (or survive at the front of a relative
path). `allowAbove` is `true` exactly for relative paths. -/
def normSegs (allowAbove : Bool) : List Str → List Str → List Str
  | [], acc => acc.reverse
  | s :: rest, acc =>
    if s = [] ∨ s = ['.'] then normSegs allowAbove rest acc
    else if s = dotdot then
      match acc with
      | [] =>
        if allowAbove then normSegs allowAbove rest [dotdot]
        else normSegs allowAbove rest []
      | t :: acc' =>
        if t = dotdot then normSegs allowAbove rest (dotdot :: acc)
        else normSegs allowAbove rest acc'
    else normSegs allowAbove rest (s :: acc)

namespace Path

/-- Node `path.posix.normalize`. -/
def normalize (p : Str) : Str :=
  if p = [] then ['.'] else
  let isAbs : Bool := decide (p.head? = some '/')
  let trail : Bool := decide (p.getLast? = some '/')
  let core := List.intercalate ['/'] (normSegs (!isAbs) (splitSlash p) [])
  if core = [] then
    (if isAbs then ['/'] else if trail then ['.', '/'] else ['.'])
  else
    (if isAbs then '/' :: core else core) ++ (if trail then ['/'] else [])

/-- Node `path.posix.join` restricted to two arguments, as used by the
handler: concatenate the non-empty parts with `'/'` and normalize. -/
def joinP (a b : Str) : Str :=
  if a = [] ∧ b = [] then ['.']
  else if a = [] then normalize b
  else if b = [] then normalize a
  else normalize (a ++ '/' :: b)

/-- Final step of `dirname`: `r2` is the reversed prefix of the path up to
and including the last separator that is followed by a non-separator. -/
def dirnameAux (hasRoot : Bool) (r2 : Str) : Str :=
  if r2.length ≤ 1 then (if hasRoot then ['/'] else ['.'])
  else if hasRoot && r2.length == 2 then ['/', '/']
  else (r2.drop 1).reverse

/-- Node `path.posix.dirname`: everything before the last separator that is
followed by a non-separator, with Node's root edge cases. -/
def dirname (p : Str) : Str :=
  if p = [] then ['.'] else
  dirnameAux (decide (p.head? = some '/'))
    ((p.reverse.dropWhile (fun c => c == '/')).dropWhile (fun c => c != '/'))

/-- Node `path.posix.basename` (one-argument form): the last path
component, with trailing separators ignored. -/
def basename (p : Str) : Str :=
  ((p.reverse.dropWhile (fun c => c == '/')).takeWhile (fun c => c != '/')).reverse

end Path

/-! ## JavaScript `String.prototype.replace` with a string pattern
(first occurrence only) -/

/-- Split a string at the first occurrence of `pat`, if any. -/
def splitFirst (pat : Str) : Str → Option (Str × Str)
  | [] => if pat = [] then some ([], []) else none
  | c :: cs =>
    if decide (pat <+: (c :: cs)) then some ([], (c :: cs).drop pat.length)
    else
      match splitFirst pat cs with
      | some (a, b) => some (c :: a, b)
      | none => none

/-- JavaScript `s.replace(pat, repl)` for a string `pat`: replace only the
first occurrence, return `s` unchanged when there is none. -/
def replaceFirst (pat repl s : Str) : Str :=
  match splitFirst pat s with
  | some (a, b) => a ++ repl ++ b
  | none => s

/-! ## Data model -/

/-- The storage finalize-event descriptor (`object` in the source): `name`
and `contentType` may be absent, `metadata` is a string-keyed map (an
absent metadata object is the empty map). -/
structure UploadEvent where
  name : Option Str
  bucket : Str
  contentType : Option Str
  metadata : List (Str × Str)
  deriving DecidableEq

/-- Environment oracle for one run: the outcome of every fallible external
call the handler awaits, plus the run-independent data those collaborators
produce.  `originalBytes` is the byte content of the remote object at the
event's path; `resizedBytes` is whatever `convert` writes; `isoTimestamp`
is `new Date().toISOString()`. -/
structure Oracle where
  downloadOk : Bool
  decodeOk : Bool
  width : Nat
  height : Nat
  convertOk : Bool
  uploadOk : Bool
  signedUrlOk : Bool
  signedUrl : Str
  deleteOk : Bool
  firestoreOk : Bool
  isoTimestamp : Str
  originalBytes : Bytes
  resizedBytes : Bytes
  deriving DecidableEq

/-- The pipeline stage whose awaited external call threw. -/
inductive Stage where
  | download | decode | convert | upload | signedUrl | delete | firestore
  deriving DecidableEq

/-- The handler's return value on the fully successful path
(`{ originalMetadata, url }` in the source). -/
structure RunResult where
  originalMetadata : List (Str × Str)
  url : Str
  deriving DecidableEq

/-- How one run ends: early `return null` at the filter, the success
value, or a thrown error at some stage. -/
inductive RunExit where
  | skipped
  | success (r : RunResult)
  | failed (s : Stage)
  deriving DecidableEq

/-- The external calls one run issues, in trace form.  Local files are
tracked as created/removed path lists; `resizeCalls` records
`(input, targetHeight, output)` for `convert input -resize x1080 output`;
`uploadCalls` records `(destination key, bytes)`; `deleteCalls` records the
remote keys the handler asked the bucket to delete; `firestoreUpdates`
records `(document path, value written to the resource field)`. -/
structure Effects where
  mkdirCalls : List Str
  downloadCalls : List Str
  localCreated : List Str
  resizeCalls : List (Str × Nat × Str)
  copyCalls : List (Str × Str)
  uploadCalls : List (Str × Bytes)
  signedUrlCalls : List Str
  localRemoved : List Str
  deleteCalls : List Str
  firestoreUpdates : List (Str × Str)
  deriving DecidableEq

/-- The trace of a run that issued no external calls at all. -/
def Effects.empty : Effects := ⟨[], [], [], [], [], [], [], [], [], []⟩

/-- `object.contentType?.startsWith("image/")`: `false` when `contentType`
is absent (optional chaining yields `undefined`, which is falsy). -/
def ctIsImage : Option Str → Bool
  | none => false
  | some s => startsW (strD "image/") s

/-! ## The handler -/

/-- Publisher tail of the handler (source lines 91–115): upload the scaled
file to the key with the first `"upload/"` replaced by `"images/"`, obtain
a signed read URL, unlink both local temp files, delete the original
remote object, and unconditionally update the Firestore document at
`object.metadata.messageOrigin` (an absent key makes `doc(undefined)`
throw before any update is issued). -/
def publishStage (object : UploadEvent) (o : Oracle)
    (filePath tempLocalFile tempLocalScaledFile scaledFilePath : Str)
    (scaledBytes : Bytes) (pre : Effects) : RunExit × Effects :=
  let bucketFilePath := replaceFirst (strD "upload/") (strD "images/") scaledFilePath
  if o.uploadOk = true then
    if o.signedUrlOk = true then
      if o.deleteOk = true then
        match object.metadata.lookup (strD "messageOrigin") with
        | none =>
          (.failed .firestore,
           ⟨pre.mkdirCalls, pre.downloadCalls, pre.localCreated, pre.resizeCalls,
            pre.copyCalls, [(bucketFilePath, scaledBytes)], [bucketFilePath],
            [tempLocalScaledFile, tempLocalFile], [filePath], []⟩)
        | some docPath =>
          if o.firestoreOk = true then
            (.success ⟨object.metadata, o.signedUrl⟩,
             ⟨pre.mkdirCalls, pre.downloadCalls, pre.localCreated, pre.resizeCalls,
              pre.copyCalls, [(bucketFilePath, scaledBytes)], [bucketFilePath],
              [tempLocalScaledFile, tempLocalFile], [filePath],
              [(docPath, o.signedUrl)]⟩)
          else
            (.failed .firestore,
             ⟨pre.mkdirCalls, pre.downloadCalls, pre.localCreated, pre.resizeCalls,
              pre.copyCalls, [(bucketFilePath, scaledBytes)], [bucketFilePath],
              [tempLocalScaledFile, tempLocalFile], [filePath],
              [(docPath, o.signedUrl)]⟩)
      else
        (.failed .delete,
         ⟨pre.mkdirCalls, pre.downloadCalls, pre.localCreated, pre.resizeCalls,
          pre.copyCalls, [(bucketFilePath, scaledBytes)], [bucketFilePath],
          [tempLocalScaledFile, tempLocalFile], [filePath], []⟩)
    else
      (.failed .signedUrl,
       ⟨pre.mkdirCalls, pre.downloadCalls, pre.localCreated, pre.resizeCalls,
        pre.copyCalls, [(bucketFilePath, scaledBytes)], [bucketFilePath], [], [], []⟩)
  else
    (.failed .upload,
     ⟨pre.mkdirCalls, pre.downloadCalls, pre.localCreated, pre.resizeCalls,
      pre.copyCalls, [(bucketFilePath, scaledBytes)], [], [], [], []⟩)

/-- The `imgDownscale` handler of `src/functions/index.js`, one run over
one event with a given environment oracle. -/
def imgDownscale (object : UploadEvent) (o : Oracle) : RunExit × Effects :=
  let filePath := object.name.getD []
  if ctIsImage object.contentType = true then
    let baseFileName := Path.basename filePath
    let fileDir := Path.dirname filePath
    if endsW (strD "/upload") fileDir = true then
      let scaledFilePath :=
        Path.normalize (Path.joinP fileDir (o.isoTimestamp ++ '_' :: baseFileName))
      let tempLocalFile := Path.joinP (strD "/tmp") filePath
      let tempLocalDir := Path.dirname tempLocalFile
      let tempLocalScaledFile := Path.joinP (strD "/tmp") scaledFilePath
      if o.downloadOk = true then
        if o.decodeOk = true then
          if 1080 < o.width then
            if o.convertOk = true then
              publishStage object o filePath tempLocalFile tempLocalScaledFile
                scaledFilePath o.resizedBytes
                ⟨[tempLocalDir], [filePath], [tempLocalFile, tempLocalScaledFile],
                 [(tempLocalFile, 1080, tempLocalScaledFile)], [], [], [], [], [], []⟩
            else
              (.failed .convert,
               ⟨[tempLocalDir], [filePath], [tempLocalFile],
                [(tempLocalFile, 1080, tempLocalScaledFile)], [], [], [], [], [], []⟩)
          else
            publishStage object o filePath tempLocalFile tempLocalScaledFile
              scaledFilePath o.originalBytes
              ⟨[tempLocalDir], [filePath], [tempLocalFile, tempLocalScaledFile],
               [], [(tempLocalFile, tempLocalScaledFile)], [], [], [], [], []⟩
        else
          (.failed .decode,
           ⟨[tempLocalDir], [filePath], [tempLocalFile], [], [], [], [], [], [], []⟩)
      else
        (.failed .download,
         ⟨[tempLocalDir], [filePath], [], [], [], [], [], [], [], []⟩)
    else (.skipped, Effects.empty)
  else (.skipped, Effects.empty)

/-- Modelled from the spec: the external resize operation
(`convert input -resize x1080 output`, §6 `resize(inputPath,
targetHeightPixels)`), which is not part of this repository.  Per the
spec's contract it normalizes the height to the target (1080) and scales
the width proportionally, so the output dimensions of a `w×h` input are
`(w·1080/h, 1080)`. -/
def resizeDims (w h : Nat) : Nat × Nat := (w * 1080 / h, 1080)

/-- Modelled from the spec's words (refinement target for the destination
key): the original directory with its trailing staging component
`"upload"` replaced by `"images"`, joined with the name
`{timestamp}_{basename}`. -/
def specDestKey (fileDir ts base : Str) : Str :=
  fileDir.take (fileDir.length - 6) ++ strD "images/" ++ ts ++ '_' :: base

/-! ## Concrete inputs used by witnesses and counterexamples -/

/-- The spec's canonical scenario event:
`files/u1/assets/upload/pic.png`, an image, with a `messageOrigin`. -/
def evA : UploadEvent :=
  { name := some (strD "files/u1/assets/upload/pic.png")
    bucket := strD "bkt"
    contentType := some (strD "image/png")
    metadata := [(strD "messageOrigin", strD "docs/A")] }

/-- An environment in which every external call succeeds; the original
image is 2000×1500. -/
def okOracle : Oracle :=
  { downloadOk := true, decodeOk := true, width := 2000, height := 1500
    convertOk := true, uploadOk := true, signedUrlOk := true
    signedUrl := strD "https://signed.example/u"
    deleteOk := true, firestoreOk := true
    isoTimestamp := strD "2024-01-01T00:00:00.000Z"
    originalBytes := [1, 2, 3], resizedBytes := [9, 9] }

/-! ## Helper lemmas -/

/-- A directory ending in the component `"/upload"` in particular ends in
the string `"upload"`. -/
theorem endsW_upload_of_slash (d : Str)
    (h : endsW (strD "/upload") d = true) : endsW (strD "upload") d = true := by
  simp only [endsW, decide_eq_true_eq] at h ⊢
  exact List.IsSuffix.trans ⟨['/'], rfl⟩ h

/-! ## Claims -/

/-- C5: for every event whose `contentType` is absent or does not begin
with `"image/"` (that is exactly `ctIsImage contentType = false`, matching
`!object.contentType?.startsWith("image/")`), the run returns early with
`null` and an empty trace: no storage, filesystem, or document-store
calls. -/
theorem skip_when_not_image (e : UploadEvent) (o : Oracle)
    (h : ctIsImage e.contentType = false) :
    imgDownscale e o = (.skipped, Effects.empty) := by
  simp [imgDownscale, h]

/-- Witness for C5: a `text/plain` event goes through `skip_when_not_image`. -/
theorem skip_when_not_image_witness :
    ctIsImage ({ evA with contentType := some (strD "text/plain") } : UploadEvent).contentType = false ∧
    imgDownscale { evA with contentType := some (strD "text/plain") } okOracle
      = (.skipped, Effects.empty) :=
  ⟨by decide, skip_when_not_image _ okOracle (by decide)⟩

/-- C6: for every event whose object directory does not end in the staging
subdirectory name `"upload"`, the run returns early with `null` and an
empty trace (the code's guard requires the stronger suffix `"/upload"`,
so any directory not ending in `"upload"` is skipped).  This is the
idempotence guard against re-triggering on the pipeline's own output. -/
theorem skip_when_dir_not_upload (e : UploadEvent) (o : Oracle)
    (h : endsW (strD "upload") (Path.dirname (e.name.getD [])) = false) :
    imgDownscale e o = (.skipped, Effects.empty) := by
  cases hct : ctIsImage e.contentType
  · simp [imgDownscale, hct]
  · cases hs : endsW (strD "/upload") (Path.dirname (e.name.getD []))
    · simp [imgDownscale, hct, hs]
    · exact absurd (endsW_upload_of_slash _ hs) (by simp [h])

/-- Witness for C6: an event in the sibling `images` directory goes
through `skip_when_dir_not_upload`. -/
theorem skip_when_dir_not_upload_witness :
    endsW (strD "upload")
      (Path.dirname (({ evA with name := some (strD "files/u1/assets/images/pic.png") } : UploadEvent).name.getD [])) = false ∧
    imgDownscale { evA with name := some (strD "files/u1/assets/images/pic.png") } okOracle
      = (.skipped, Effects.empty) :=
  ⟨by decide, skip_when_dir_not_upload _ okOracle (by decide)⟩

/-- C10: for every event whose `name` field is absent, the handler
substitutes the empty string (`object.name || ""`), the empty path's
directory `"."` fails the `"/upload"` guard, and the run ends in the
filter stage with `null` and no external calls — whatever the
content type was. -/
theorem absent_name_skips (e : UploadEvent) (o : Oracle)
    (h : e.name = none) :
    imgDownscale e o = (.skipped, Effects.empty) := by
  have hfd : endsW (strD "/upload") (Path.dirname ([] : Str)) = false := by decide
  cases hct : ctIsImage e.contentType
  · simp [imgDownscale, hct]
  · simp [imgDownscale, hct, h, hfd]

/-- Witness for C10: the nameless event goes through `absent_name_skips`. -/
theorem absent_name_skips_witness :
    ({ evA with name := none } : UploadEvent).name = none ∧
    imgDownscale { evA with name := none } okOracle = (.skipped, Effects.empty) :=
  ⟨rfl, absent_name_skips _ okOracle rfl⟩

/-- C1: in every run, the handler issues the remote delete of the original
object (`bucket.file(filePath).delete()`) if and only if the scaled
artifact's upload was issued and succeeded and the signed read URL was
requested and obtained.  In particular, when the upload or the signed-URL
issuance fails, the original object is never deleted. -/
theorem original_delete_iff_upload_and_signedUrl (e : UploadEvent) (o : Oracle) :
    (imgDownscale e o).2.deleteCalls ≠ [] ↔
      ((imgDownscale e o).2.uploadCalls ≠ [] ∧ o.uploadOk = true ∧
       (imgDownscale e o).2.signedUrlCalls ≠ [] ∧ o.signedUrlOk = true) := by
  cases hct : ctIsImage e.contentType
  · simp [imgDownscale, hct, Effects.empty]
  · cases hdir : endsW (strD "/upload") (Path.dirname (e.name.getD []))
    · simp [imgDownscale, hct, hdir, Effects.empty]
    · cases hdl : o.downloadOk
      · simp [imgDownscale, hct, hdir, hdl]
      · cases hdec : o.decodeOk
        · simp [imgDownscale, hct, hdir, hdl, hdec]
        · rcases hl : e.metadata.lookup (strD "messageOrigin") with _ | dp <;>
          by_cases hw : 1080 < o.width <;>
          cases hcv : o.convertOk <;>
          cases hup : o.uploadOk <;>
          cases hsu : o.signedUrlOk <;>
          cases hdel : o.deleteOk <;>
          cases hfs : o.firestoreOk <;>
          simp [imgDownscale, publishStage, hct, hdir, hdl, hdec, hl, hw,
                hcv, hup, hsu, hdel, hfs]

/-- C3: for every decodable image that proceeds past the filter and has
width at most 1080, no resize call is issued, a local byte-for-byte copy
is made instead, and the bytes handed to the upload are exactly the
original object's bytes. -/
theorem small_image_copied (e : UploadEvent) (o : Oracle)
    (hct : ctIsImage e.contentType = true)
    (hdir : endsW (strD "/upload") (Path.dirname (e.name.getD [])) = true)
    (hdl : o.downloadOk = true) (hdec : o.decodeOk = true)
    (hw : o.width ≤ 1080) :
    (imgDownscale e o).2.resizeCalls = [] ∧
    (imgDownscale e o).2.copyCalls ≠ [] ∧
    (imgDownscale e o).2.uploadCalls.map Prod.snd = [o.originalBytes] := by
  have hw' : ¬ (1080 < o.width) := by omega
  rcases hl : e.metadata.lookup (strD "messageOrigin") with _ | dp <;>
  cases hup : o.uploadOk <;>
  cases hsu : o.signedUrlOk <;>
  cases hdel : o.deleteOk <;>
  cases hfs : o.firestoreOk <;>
  simp [imgDownscale, publishStage, hct, hdir, hdl, hdec, hw', hl,
        hup, hsu, hdel, hfs]

/-- Witness for C3: the spec's 800×600 scenario goes through
`small_image_copied`. -/
theorem small_image_copied_witness :
    (imgDownscale evA { okOracle with width := 800, height := 600 }).2.resizeCalls = [] ∧
    (imgDownscale evA { okOracle with width := 800, height := 600 }).2.copyCalls ≠ [] ∧
    (imgDownscale evA { okOracle with width := 800, height := 600 }).2.uploadCalls.map Prod.snd
      = [({ okOracle with width := 800, height := 600 } : Oracle).originalBytes] :=
  small_image_copied evA _ (by decide) (by decide) rfl rfl (by decide)

/-- Division bounds used for the aspect-ratio rounding tolerance:
`b * (a / b)` underestimates `a` by less than `b`. -/
theorem div_mul_bounds (a b : Nat) (hb : 0 < b) :
    b * (a / b) ≤ a ∧ a < b * (a / b + 1) := by
  constructor
  · calc b * (a / b) ≤ b * (a / b) + a % b := Nat.le_add_right _ _
      _ = a := Nat.div_add_mod a b
  · calc a = b * (a / b) + a % b := (Nat.div_add_mod a b).symm
      _ < b * (a / b) + b := Nat.add_lt_add_left (Nat.mod_lt a hb) _
      _ = b * (a / b + 1) := by rw [Nat.mul_add, Nat.mul_one]

/-- Counterexample for C2: the claim says no image is ever upscaled above
its original dimensions, but a 2000×500 image passes the `width > 1080`
test and the height-normalizing resize (`-resize x1080`, per the spec's
own contract for the external operation) produces a 4320×1080 artifact —
larger than the original in both dimensions. -/
theorem upscale_counterexample :
    (imgDownscale evA { okOracle with width := 2000, height := 500 }).2.resizeCalls ≠ [] ∧
    resizeDims 2000 500 = (4320, 1080) ∧
    2000 < (resizeDims 2000 500).1 ∧ 500 < (resizeDims 2000 500).2 := by
  exact ⟨by decide, by decide, by decide, by decide⟩

/-- C2 (amended): for every decodable image past the filter with
width > 1080, the external resize is invoked exactly once with target
height 1080 (width unconstrained), no plain copy happens, the resized
bytes are what is uploaded, and the artifact's dimensions
`resizeDims w h` have height exactly 1080 with the original aspect ratio
preserved within integer rounding; no downscaled-branch image is upscaled
provided its height was already at least 1080 (for height < 1080 the
height normalization upscales, refuting the unrestricted no-upscaling
clause). -/
theorem resize_invoked_height_1080 (e : UploadEvent) (o : Oracle)
    (hct : ctIsImage e.contentType = true)
    (hdir : endsW (strD "/upload") (Path.dirname (e.name.getD [])) = true)
    (hdl : o.downloadOk = true) (hdec : o.decodeOk = true)
    (hw : 1080 < o.width) (hcv : o.convertOk = true) (hh : 0 < o.height) :
    (imgDownscale e o).2.resizeCalls.map (fun t => t.2.1) = [1080] ∧
    (imgDownscale e o).2.copyCalls = [] ∧
    (imgDownscale e o).2.uploadCalls.map Prod.snd = [o.resizedBytes] ∧
    (resizeDims o.width o.height).2 = 1080 ∧
    o.height * (resizeDims o.width o.height).1 ≤ o.width * 1080 ∧
    o.width * 1080 < o.height * ((resizeDims o.width o.height).1 + 1) ∧
    (1080 ≤ o.height →
      (resizeDims o.width o.height).1 ≤ o.width ∧
      (resizeDims o.width o.height).2 ≤ o.height) := by
  have trace :
      (imgDownscale e o).2.resizeCalls.map (fun t => t.2.1) = [1080] ∧
      (imgDownscale e o).2.copyCalls = [] ∧
      (imgDownscale e o).2.uploadCalls.map Prod.snd = [o.resizedBytes] := by
    rcases hl : e.metadata.lookup (strD "messageOrigin") with _ | dp <;>
    cases hup : o.uploadOk <;>
    cases hsu : o.signedUrlOk <;>
    cases hdel : o.deleteOk <;>
    cases hfs : o.firestoreOk <;>
    simp [imgDownscale, publishStage, hct, hdir, hdl, hdec, hw, hcv, hl,
          hup, hsu, hdel, hfs]
  obtain ⟨hA, hB⟩ := div_mul_bounds (o.width * 1080) o.height hh
  refine ⟨trace.1, trace.2.1, trace.2.2, rfl, hA, hB, ?_⟩
  intro hge
  refine ⟨?_, hge⟩
  have h1 : o.width * 1080 ≤ o.width * o.height := Nat.mul_le_mul_left _ hge
  have h2 : o.width * 1080 / o.height ≤ o.width * o.height / o.height :=
    Nat.div_le_div_right h1
  rwa [Nat.mul_div_cancel _ hh] at h2

/-- Witness for C2 (amended): the spec's 2000×1500 scenario goes through
`resize_invoked_height_1080`; its artifact is 1440×1080, not upscaled. -/
theorem resize_invoked_height_1080_witness :
    (imgDownscale evA okOracle).2.resizeCalls.map (fun t => t.2.1) = [1080] ∧
    (imgDownscale evA okOracle).2.uploadCalls.map Prod.snd = [okOracle.resizedBytes] ∧
    (resizeDims okOracle.width okOracle.height).1 ≤ okOracle.width := by
  have h := resize_invoked_height_1080 evA okOracle (by decide) (by decide)
    rfl rfl (by decide) rfl (by decide)
  exact ⟨h.1, h.2.2.1, (h.2.2.2.2.2.2 (by decide)).1⟩

/-- Counterexample for C7: a run that fails at the decode stage (after a
successful download) ends with a created scratch file that was never
removed — the unlink calls live only on the success path. -/
theorem temp_leak_on_decode_failure :
    (imgDownscale evA { okOracle with decodeOk := false }).2.localCreated ≠ [] ∧
    (imgDownscale evA { okOracle with decodeOk := false }).2.localRemoved = [] := by
  exact ⟨by decide, by decide⟩

/-- Exits at which the handler has already executed its two `unlinkSync`
calls: the filtered skip (no temp file was ever created), the success
exit, and the two failure stages that lie after the unlinks (original
delete and Firestore update). -/
def cleanExit : RunExit → Bool
  | .skipped => true
  | .success _ => true
  | .failed .delete => true
  | .failed .firestore => true
  | .failed _ => false

/-- C7 (amended): on every filtered-skip or success exit — and even on the
late failures at the original-delete or document-update stage — every
local temporary file created by the run has been removed before the run
ends; on failures before the signed URL (download, decode, convert,
upload, signed-URL stages) the temp files may remain.  The unrestricted
every-exit-path claim is refuted by `temp_leak_on_decode_failure`. -/
theorem temps_removed_on_clean_exit (e : UploadEvent) (o : Oracle)
    (h : cleanExit (imgDownscale e o).1 = true) :
    ∀ f ∈ (imgDownscale e o).2.localCreated,
      f ∈ (imgDownscale e o).2.localRemoved := by
  cases hct : ctIsImage e.contentType
  · simp [imgDownscale, hct, Effects.empty]
  · cases hdir : endsW (strD "/upload") (Path.dirname (e.name.getD []))
    · simp [imgDownscale, hct, hdir, Effects.empty]
    · cases hdl : o.downloadOk
      · simp [imgDownscale, cleanExit, hct, hdir, hdl] at h
      · cases hdec : o.decodeOk
        · simp [imgDownscale, cleanExit, hct, hdir, hdl, hdec] at h
        · rcases hl : e.metadata.lookup (strD "messageOrigin") with _ | dp <;>
          by_cases hw : 1080 < o.width <;>
          cases hcv : o.convertOk <;>
          cases hup : o.uploadOk <;>
          cases hsu : o.signedUrlOk <;>
          cases hdel : o.deleteOk <;>
          cases hfs : o.firestoreOk <;>
          first
            | (intro f hf
               simp [imgDownscale, publishStage, hct, hdir, hdl, hdec,
                 hl, hw, hcv, hup, hsu, hdel, hfs] at hf ⊢
               exact hf.elim Or.inr Or.inl)
            | simp [imgDownscale, publishStage, cleanExit, hct, hdir, hdl,
                    hdec, hl, hw, hcv, hup, hsu, hdel, hfs] at h

/-- Witness for C7 (amended): the fully successful scenario goes through
`temps_removed_on_clean_exit`. -/
theorem temps_removed_on_clean_exit_witness :
    cleanExit (imgDownscale evA okOracle).1 = true ∧
    ∀ f ∈ (imgDownscale evA okOracle).2.localCreated,
      f ∈ (imgDownscale evA okOracle).2.localRemoved :=
  ⟨by decide, temps_removed_on_clean_exit evA okOracle (by decide)⟩

/-- Counterexample for C8: an event with no `messageOrigin` metadata key
that reaches the publisher with every external call succeeding does NOT
complete successfully — `doc(object.metadata.messageOrigin)` receives
`undefined` and throws, so the run fails at the document-update stage
(though indeed no update is issued). -/
theorem missing_origin_errors :
    (imgDownscale { evA with metadata := [] } okOracle).1 = .failed .firestore ∧
    (imgDownscale { evA with metadata := [] } okOracle).2.firestoreUpdates = [] := by
  exact ⟨by decide, by decide⟩

/-- C8 (amended): for every event that reaches the publisher stage with no
`messageOrigin` key, no document-store update is issued, but the run fails
at the document-update stage instead of completing successfully — and by
then the destructive delete of the original has already been issued. -/
theorem missing_origin_no_update_but_error (e : UploadEvent) (o : Oracle)
    (hct : ctIsImage e.contentType = true)
    (hdir : endsW (strD "/upload") (Path.dirname (e.name.getD [])) = true)
    (hdl : o.downloadOk = true) (hdec : o.decodeOk = true)
    (hcv : o.convertOk = true) (hup : o.uploadOk = true)
    (hsu : o.signedUrlOk = true) (hdel : o.deleteOk = true)
    (hmo : e.metadata.lookup (strD "messageOrigin") = none) :
    (imgDownscale e o).1 = .failed .firestore ∧
    (imgDownscale e o).2.firestoreUpdates = [] ∧
    (imgDownscale e o).2.deleteCalls = [e.name.getD []] := by
  by_cases hw : 1080 < o.width <;>
  simp [imgDownscale, publishStage, hct, hdir, hdl, hdec, hcv, hup, hsu,
        hdel, hmo, hw]

/-- Witness for C8 (amended): the metadata-less event goes through
`missing_origin_no_update_but_error`. -/
theorem missing_origin_no_update_but_error_witness :
    (imgDownscale { evA with metadata := [] } okOracle).1 = .failed .firestore ∧
    (imgDownscale { evA with metadata := [] } okOracle).2.firestoreUpdates = [] ∧
    (imgDownscale { evA with metadata := [] } okOracle).2.deleteCalls
      = [({ evA with metadata := [] } : UploadEvent).name.getD []] :=
  missing_origin_no_update_but_error _ okOracle (by decide) (by decide)
    rfl rfl rfl rfl rfl rfl rfl

/-- C9: in every run the origin document is updated at most once, an
update can only happen after the signed URL was requested and obtained,
and on a successful run whose metadata maps `messageOrigin` to `m` the
single update writes the run result's `url` into the `resource` field of
document `m`. -/
theorem origin_update_once_after_url (e : UploadEvent) (o : Oracle) :
    (imgDownscale e o).2.firestoreUpdates.length ≤ 1 ∧
    ((imgDownscale e o).2.firestoreUpdates ≠ [] →
      (imgDownscale e o).2.signedUrlCalls ≠ [] ∧ o.signedUrlOk = true) ∧
    (∀ r m, (imgDownscale e o).1 = .success r →
      e.metadata.lookup (strD "messageOrigin") = some m →
      (imgDownscale e o).2.firestoreUpdates = [(m, r.url)]) := by
  cases hct : ctIsImage e.contentType
  · simp [imgDownscale, hct, Effects.empty]
  · cases hdir : endsW (strD "/upload") (Path.dirname (e.name.getD []))
    · simp [imgDownscale, hct, hdir, Effects.empty]
    · cases hdl : o.downloadOk
      · simp [imgDownscale, hct, hdir, hdl]
      · cases hdec : o.decodeOk
        · simp [imgDownscale, hct, hdir, hdl, hdec]
        · rcases hl : e.metadata.lookup (strD "messageOrigin") with _ | dp <;>
          by_cases hw : 1080 < o.width <;>
          cases hcv : o.convertOk <;>
          cases hup : o.uploadOk <;>
          cases hsu : o.signedUrlOk <;>
          cases hdel : o.deleteOk <;>
          cases hfs : o.firestoreOk <;>
          simp [imgDownscale, publishStage, hct, hdir, hdl, hdec, hl, hw,
                hcv, hup, hsu, hdel, hfs]

/-! ## C4: the destination key -/

/-- An event whose path contains an `"upload/"` segment before the staging
directory; JavaScript's first-occurrence `replace` rewrites the wrong
segment for it. -/
def evBad : UploadEvent :=
  { name := some (strD "upload/u/assets/upload/pic.png")
    bucket := strD "bkt"
    contentType := some (strD "image/png")
    metadata := [(strD "messageOrigin", strD "docs/A")] }

/-- Counterexample for C4: on path `upload/u/assets/upload/pic.png` (whose
directory ends in the staging component as required), the handler's
first-occurrence `replace("upload/", "images/")` rewrites the leading
segment, so the upload goes to `images/u/assets/upload/…` — not to the
spec's key (staging directory replaced), and its directory still ends in
`"/upload"`, so the published artifact can re-trigger the pipeline. -/
theorem destKey_counterexample :
    (imgDownscale evBad okOracle).2.uploadCalls.map Prod.fst
      = [strD "images/u/assets/upload/2024-01-01T00:00:00.000Z_pic.png"] ∧
    strD "images/u/assets/upload/2024-01-01T00:00:00.000Z_pic.png"
      ≠ specDestKey (Path.dirname (evBad.name.getD []))
          okOracle.isoTimestamp (Path.basename (evBad.name.getD [])) ∧
    endsW (strD "/upload")
      (Path.dirname (strD "images/u/assets/upload/2024-01-01T00:00:00.000Z_pic.png"))
      = true := by
  exact ⟨by decide, by decide, by decide⟩

/-- Dropping stops immediately at a first block that falsifies the
predicate. -/
theorem dropWhile_append_stop {p : Char → Bool} {l1 l2 : Str} (h1 : l1 ≠ [])
    (h : ∀ a ∈ l1, p a = false) : (l1 ++ l2).dropWhile p = l1 ++ l2 := by
  cases l1 with
  | nil => exact absurd rfl h1
  | cons a t => simp [List.dropWhile_cons, h a (by simp)]

/-- Dropping passes entirely through a block that satisfies the
predicate. -/
theorem dropWhile_append_through {p : Char → Bool} {l1 l2 : Str}
    (h : ∀ a ∈ l1, p a = true) : (l1 ++ l2).dropWhile p = l2.dropWhile p := by
  induction l1 with
  | nil => simp
  | cons a t ih =>
    simp [List.dropWhile_cons, h a (by simp),
      ih (fun x hx => h x (by simp [hx]))]

/-- `dirname` of a directory followed by one separator and a
separator-free final component is that directory. -/
theorem dirname_append (d w : Str) (hw : w ≠ []) (hws : ∀ c ∈ w, c ≠ '/')
    (hd : 2 ≤ d.length) :
    Path.dirname (d ++ '/' :: w) = d := by
  have hne : d ++ '/' :: w ≠ [] := by simp
  have hrev : (d ++ '/' :: w).reverse = w.reverse ++ '/' :: d.reverse := by
    simp
  have hr1 : (w.reverse ++ '/' :: d.reverse).dropWhile (fun c => c == '/')
      = w.reverse ++ '/' :: d.reverse := by
    refine dropWhile_append_stop (by simpa using hw) ?_
    intro a ha
    have : a ≠ '/' := hws a (by simpa using ha)
    simpa using this
  have hr2 : (w.reverse ++ '/' :: d.reverse).dropWhile (fun c => c != '/')
      = '/' :: d.reverse := by
    rw [dropWhile_append_through]
    · simp [List.dropWhile_cons]
    · intro a ha
      have : a ≠ '/' := hws a (by simpa using ha)
      simpa using this
  unfold Path.dirname
  rw [if_neg hne, hrev, hr1, hr2]
  unfold Path.dirnameAux
  have hlen : ('/' :: d.reverse).length = d.length + 1 := by simp
  rw [if_neg (by omega), if_neg (by simp; omega)]
  simp

/-- Every character of a `basename` is separator-free. -/
theorem basename_no_slash (fp : Str) : ∀ c ∈ Path.basename fp, c ≠ '/' := by
  intro c hc
  unfold Path.basename at hc
  rw [List.mem_reverse] at hc
  have := List.mem_takeWhile_imp hc
  simpa using this

/-- `specDestKey` of a directory ending in the staging component, spelled
out: the `"upload"` suffix becomes `"images"` and the timestamped name is
appended. -/
theorem specDestKey_append (p ts b : Str) :
    specDestKey (p ++ strD "/upload") ts b
      = p ++ strD "/images/" ++ ts ++ '_' :: b := by
  have hsUp : strD "/upload" = '/' :: strD "upload" := by decide
  have hsIm : strD "/images/" = '/' :: strD "images/" := by decide
  have h6 : (strD "upload").length = 6 := by decide
  unfold specDestKey
  rw [hsUp, show p ++ '/' :: strD "upload" = (p ++ ['/']) ++ strD "upload" by simp]
  have hl : ((p ++ ['/']) ++ strD "upload").length - 6 = (p ++ ['/']).length := by
    simp [h6]
  rw [hl, List.take_left, hsIm]
  simp

/-- Suffixes of the same list with the same length coincide. -/
theorem suffix_eq_of_length {l1 l2 l : Str} (h1 : l1 <:+ l) (h2 : l2 <:+ l)
    (hlen : l1.length = l2.length) : l1 = l2 := by
  obtain ⟨t1, e1⟩ := h1
  obtain ⟨t2, e2⟩ := h2
  have he : t1 ++ l1 = t2 ++ l2 := e1.trans e2.symm
  have hl : t1.length = t2.length := by
    have := congrArg List.length he
    simp [hlen] at this
    omega
  exact (List.append_inj he hl).2

/-- C4 (amended): for every proceeding event whose scaled path is in
normal form and whose FIRST `"upload/"` occurrence is the staging
directory itself (the canonical `…/assets/upload/…` layout), the upload's
destination key equals the spec's key — the directory with the trailing
`"upload"` replaced by `"images"`, joined with `{timestamp}_{basename}` —
that key's directory ends in `"/images"` and not in `"/upload"` (so it
cannot re-trigger the pipeline), and two runs with distinct
(equal-length timestamp, basename) pairs derive distinct keys.  When an
earlier `"upload/"` segment exists, the first-occurrence `replace`
rewrites that segment instead and the unrestricted claim fails
(`destKey_counterexample`). -/
theorem destKey_images_and_distinct (e : UploadEvent) (o : Oracle) (fp p : Str)
    (hname : e.name = some fp)
    (hct : ctIsImage e.contentType = true)
    (hdl : o.downloadOk = true) (hdec : o.decodeOk = true)
    (hcv : o.convertOk = true)
    (hdir : Path.dirname fp = p ++ strD "/upload")
    (hts : ∀ c ∈ o.isoTimestamp, c ≠ '/')
    (hnorm : Path.normalize (Path.joinP (p ++ strD "/upload")
        (o.isoTimestamp ++ '_' :: Path.basename fp))
      = p ++ strD "/upload/" ++ (o.isoTimestamp ++ '_' :: Path.basename fp))
    (hfirst : splitFirst (strD "upload/")
        (p ++ strD "/upload/" ++ (o.isoTimestamp ++ '_' :: Path.basename fp))
      = some (p ++ ['/'], o.isoTimestamp ++ '_' :: Path.basename fp)) :
    (imgDownscale e o).2.uploadCalls.map Prod.fst
      = [specDestKey (p ++ strD "/upload") o.isoTimestamp (Path.basename fp)] ∧
    Path.dirname (specDestKey (p ++ strD "/upload") o.isoTimestamp (Path.basename fp))
      = p ++ strD "/images" ∧
    endsW (strD "/upload")
      (Path.dirname (specDestKey (p ++ strD "/upload") o.isoTimestamp
        (Path.basename fp))) = false ∧
    (∀ ts1 ts2 b1 b2 : Str, ts1.length = ts2.length → (ts1 ≠ ts2 ∨ b1 ≠ b2) →
      specDestKey (p ++ strD "/upload") ts1 b1
        ≠ specDestKey (p ++ strD "/upload") ts2 b2) := by
  have hsIm2 : strD "/images/" = strD "/images" ++ ['/'] := by decide
  have hE : endsW (strD "/upload") (Path.dirname fp) = true := by
    rw [hdir]
    simp only [endsW, decide_eq_true_eq]
    exact ⟨p, rfl⟩
  have hkey : replaceFirst (strD "upload/") (strD "images/")
      (Path.normalize (Path.joinP (Path.dirname fp)
        (o.isoTimestamp ++ '_' :: Path.basename fp)))
      = specDestKey (p ++ strD "/upload") o.isoTimestamp (Path.basename fp) := by
    rw [hdir, hnorm]
    unfold replaceFirst
    rw [hfirst, specDestKey_append]
    have hsIm : strD "/images/" = '/' :: strD "images/" := by decide
    rw [hsIm]
    simp
  have hnm : ∀ c ∈ o.isoTimestamp ++ '_' :: Path.basename fp, c ≠ '/' := by
    intro c hc
    rcases List.mem_append.1 hc with h | h
    · exact hts c h
    · rcases List.mem_cons.1 h with rfl | h2
      · decide
      · exact basename_no_slash fp c h2
  have hdirSpec : Path.dirname (specDestKey (p ++ strD "/upload")
      o.isoTimestamp (Path.basename fp)) = p ++ strD "/images" := by
    rw [specDestKey_append, hsIm2,
      show p ++ (strD "/images" ++ ['/']) ++ o.isoTimestamp ++ '_' :: Path.basename fp
        = (p ++ strD "/images") ++ '/' :: (o.isoTimestamp ++ '_' :: Path.basename fp)
        by simp]
    exact dirname_append _ _ (by simp) hnm (by simp [strD])
  refine ⟨?_, hdirSpec, ?_, ?_⟩
  · rcases hl : e.metadata.lookup (strD "messageOrigin") with _ | dp <;>
    by_cases hw : 1080 < o.width <;>
    cases hup : o.uploadOk <;>
    cases hsu : o.signedUrlOk <;>
    cases hdel : o.deleteOk <;>
    cases hfs : o.firestoreOk <;>
    simp [imgDownscale, publishStage, hname, hct, hE, hdl, hdec, hcv, hl,
          hw, hup, hsu, hdel, hfs, hkey]
  · rw [hdirSpec]
    simp only [endsW, decide_eq_false_iff_not]
    intro hsuf
    have hsuf2 : strD "/images" <:+ p ++ strD "/images" := ⟨p, rfl⟩
    have : strD "/upload" = strD "/images" :=
      suffix_eq_of_length hsuf hsuf2 (by decide)
    exact absurd this (by decide)
  · intro ts1 ts2 b1 b2 hlen hne heq
    rw [specDestKey_append, specDestKey_append] at heq
    simp only [List.append_assoc] at heq
    have h1 := List.append_cancel_left heq
    have h2 := List.append_cancel_left h1
    obtain ⟨hts12, hb⟩ := List.append_inj h2 hlen
    rcases hne with hne | hne
    · exact hne hts12
    · exact hne (by injection hb)

/-- Witness for C4 (amended): the canonical `files/u1/assets/upload`
layout goes through `destKey_images_and_distinct`. -/
theorem destKey_images_and_distinct_witness :
    (imgDownscale evA okOracle).2.uploadCalls.map Prod.fst
      = [specDestKey (strD "files/u1/assets" ++ strD "/upload")
          okOracle.isoTimestamp (Path.basename (evA.name.getD []))] ∧
    endsW (strD "/upload")
      (Path.dirname (specDestKey (strD "files/u1/assets" ++ strD "/upload")
        okOracle.isoTimestamp (Path.basename (evA.name.getD [])))) = false ∧
    specDestKey (strD "files/u1/assets" ++ strD "/upload")
        (strD "2024-01-01T00:00:00.000Z") (strD "a.png")
      ≠ specDestKey (strD "files/u1/assets" ++ strD "/upload")
        (strD "2024-01-02T00:00:00.000Z") (strD "a.png") := by
  have h := destKey_images_and_distinct evA okOracle
    (strD "files/u1/assets/upload/pic.png") (strD "files/u1/assets")
    rfl (by decide) rfl rfl rfl (by decide) (by decide) (by decide) (by decide)
  exact ⟨h.1, h.2.2.1, h.2.2.2 _ _ _ _ (by decide) (Or.inl (by decide))⟩

/-- Witness for C9: on the fully successful scenario the single update
writes the signed URL to `docs/A`. -/
theorem origin_update_once_after_url_witness :
    (imgDownscale evA okOracle).2.firestoreUpdates.length ≤ 1 ∧
    (imgDownscale evA okOracle).2.firestoreUpdates
      = [(strD "docs/A", strD "https://signed.example/u")] :=
  ⟨(origin_update_once_after_url evA okOracle).1,
   (origin_update_once_after_url evA okOracle).2.2
     ⟨evA.metadata, okOracle.signedUrl⟩ (strD "docs/A") (by decide) (by decide)⟩

end Firechat
